import Mathlib

/-!
Verification of the MIST isochrone grid-interpolation engine
(`isochrones/mist/isochrone.py`).

The model table, axes, grid builder, derived quantities and per-band
magnitude closures are embedded from the source.  Values are modelled as
exact rationals; a possibly-missing value (numpy's NaN sentinel) is
`Option ℚ` with `none` as the sentinel.  The module `utils` below models
the two interpolation routines `interp_value` / `interp_values` that the
engine imports from `isochrones.mist.utils`, a file that is not part of
the sources at hand; they are modelled from the specification of the
scalar and vector interpolators (bracketing on each axis, per-track mass
interpolation bounded by the length table, bilinear combination,
sentinel propagation).
-/

/-- The five photometric bands of the engine (`self.bands = ['u','g','r','i','z']`). -/
inductive Band : Type
  | u | g | r | i | z
deriving DecidableEq, Repr

/-- One row of the model table: its metallicity tag, its log-age tag, and its
positional columns (`df` is indexed by `[feh, age]`; `df.feh` and
`df.log10_isochrone_age_yr` read the two tags). -/
structure Row : Type where
  feh : ℚ
  age : ℚ
  cols : List ℚ
deriving DecidableEq, Repr

/-- The model table: a sequence of rows in their original order. -/
abbrev DataFrame := List Row

/-- Source `df.shape[1]`: the column count of the table, read off the rows
(uniform width is a table-contract hypothesis where it matters). -/
def dfNcols : DataFrame → ℕ
  | [] => 0
  | r :: _ => r.cols.length

/-- Helper for `uniqueFirst`: drop every element already seen. -/
def uniqueFirstAux (seen : List ℚ) : List ℚ → List ℚ
  | [] => []
  | a :: l => if a ∈ seen then uniqueFirstAux seen l else a :: uniqueFirstAux (a :: seen) l

/-- pandas `Series.unique()`: the distinct values in order of FIRST appearance
(pandas documents `unique` as returning uniques in order of appearance; it
does not sort). -/
def uniqueFirst (l : List ℚ) : List ℚ := uniqueFirstAux [] l

/-- Source `self.fehs = self.df.feh.unique()`: distinct metallicity values in order of
first appearance. -/
def fehsOf (df : DataFrame) : List ℚ := uniqueFirst (df.map Row.feh)

/-- Source `self.ages = self.df.log10_isochrone_age_yr.unique()`: distinct log-age
values in order of first appearance. -/
def agesOf (df : DataFrame) : List ℚ := uniqueFirst (df.map Row.age)

/-- Source `self.df.ix[f, a]`: the rows of the table tagged with metallicity `f` and
log-age `a`, in their original order (one track). -/
def trackOf (df : DataFrame) (f a : ℚ) : List Row :=
  df.filter (fun r => r.feh = f ∧ r.age = a)

/-- The length table (`self._grid_Ns`), indexed `[feh-index, age-index]`
(the source builds `lens` age-major and transposes it). -/
def gridNsOf (df : DataFrame) : List (List ℕ) :=
  (fehsOf df).map (fun f => (agesOf df).map (fun a => (trackOf df f a).length))

/-- Source `lens.max()`: the maximum track length over all (feh, age) cells. -/
def maxLen (df : DataFrame) : ℕ :=
  ((gridNsOf df).map (fun r => r.foldr max 0)).foldr max 0

/-- A grid entry: a number, or the NaN padding sentinel. -/
abbrev GridEntry := Option ℚ

/-- A mass row of the grid (one model, all columns). -/
abbrev GridRow := List GridEntry

/-- One (feh, age) cell of the grid: the padded track. -/
abbrev GridCell := List GridRow

/-- The full 4-D grid, indexed `[feh-index][age-index][row][column]`. -/
abbrev Grid4 := List (List GridCell)

/-- One padded track: the track's rows (all entries present), followed by
`L - len` rows of NaN padding (`data[j, i, :N, :] = df_list[i][j].values;
data[j, i, N:, :] = np.nan`). -/
def padTrack (t : List Row) (L Ncols : ℕ) : GridCell :=
  t.map (fun r => r.cols.map some) ++ List.replicate (L - t.length) (List.replicate Ncols none)

/-- Source `self._grid` as built by `_make_grid`: for each metallicity (outer) and
age (inner) the padded track, padded to the maximum track length. -/
def gridOf (df : DataFrame) (Ncols : ℕ) : Grid4 :=
  (fehsOf df).map (fun f => (agesOf df).map (fun a =>
    padTrack (trackOf df f a) (maxLen df) Ncols))

/-- Read entry `c` of a grid row; an out-of-bounds or padding read is the
sentinel (any arithmetic with NaN is NaN). -/
def cellVal (row : GridRow) (c : ℕ) : Option ℚ := (row[c]?).bind id

namespace utils

/-- Modelled from the spec: `isochrones.mist.utils` is imported by the engine
but its file is not among the sources; this models the axis-bracketing step of
the scalar interpolator.  `findBracket axis x` is the least index `k` with
`axis[k] ≤ x ≤ axis[k+1]`, and `none` when no adjacent axis pair brackets `x`
(in particular when `x` is beyond the axis endpoints). -/
def findBracket : List ℚ → ℚ → Option ℕ
  | a :: b :: rest, x =>
      if a ≤ x ∧ x ≤ b then some 0
      else (findBracket (b :: rest) x).map (· + 1)
  | _, _ => none

/-- Modelled from the spec: per-track mass interpolation of the scalar
interpolator (§4.2 step 3).  Walk the valid rows of one track; at the first
adjacent pair whose masses bracket the query, linearly interpolate the target
column by the ratio of mass distances; a query outside the track's mass range,
a track with fewer than two valid rows, or a sentinel entry yields the
sentinel. -/
def trackInterp (icol mass_col : ℕ) (x : ℚ) : GridCell → Option ℚ
  | r1 :: r2 :: rest =>
      match cellVal r1 mass_col, cellVal r2 mass_col with
      | some m1, some m2 =>
          if m1 ≤ x ∧ x ≤ m2 then
            match cellVal r1 icol, cellVal r2 icol with
            | some v1, some v2 => some (v1 + (v2 - v1) * (x - m1) / (m2 - m1))
            | _, _ => none
          else trackInterp icol mass_col x (r2 :: rest)
      | _, _ => none
  | _ => none

/-- The valid rows of the cell at `[jj][ii]`: the first `grid_Ns[jj][ii]` rows
(the length table bounds the reads; padding is never treated as data). -/
def cornerRows (grid : Grid4) (grid_Ns : List (List ℕ)) (jj ii : ℕ) : GridCell :=
  (((grid[jj]?).getD [])[ii]?.getD []).take ((((grid_Ns[jj]?).getD [])[ii]?).getD 0)

/-- Modelled from the spec: `utils.interp_value`, the scalar interpolator
(§4.2).  Bracket the metallicity and age axes; interpolate the requested
column by mass within each of the 4 corner tracks (rows bounded by the length
table); combine the 4 corner values with bilinear weights from the fractional
axis positions.  Any missing corner, or a coordinate with no bracketing axis
pair, yields the sentinel; the function is total (the engine never raises for
out-of-range scalar queries). -/
def interp_value (mass age feh : ℚ) (icol : ℕ) (grid : Grid4) (mass_col : ℕ)
    (ages fehs : List ℚ) (grid_Ns : List (List ℕ)) : Option ℚ :=
  match findBracket fehs feh, findBracket ages age with
  | some j, some i =>
      let corner : ℕ → ℕ → Option ℚ := fun jj ii =>
        trackInterp icol mass_col mass (cornerRows grid grid_Ns jj ii)
      match corner j i, corner j (i+1), corner (j+1) i, corner (j+1) (i+1) with
      | some c00, some c01, some c10, some c11 =>
          let fl := (fehs[j]?).getD 0
          let fh := (fehs[j+1]?).getD 0
          let al := (ages[i]?).getD 0
          let ah := (ages[i+1]?).getD 0
          let u := (feh - fl) / (fh - fl)
          let v := (age - al) / (ah - al)
          some ((1-u) * (1-v) * c00 + (1-u) * v * c01 + u * (1-v) * c10 + u * v * c11)
      | _, _, _, _ => none
  | _, _ => none

/-- Element-wise map over three equal-length query lists. -/
def map3 (f : ℚ → ℚ → ℚ → Option ℚ) : List ℚ → List ℚ → List ℚ → List (Option ℚ)
  | a :: as, b :: bs, c :: cs => f a b c :: map3 f as bs cs
  | _, _, _ => []

/-- Modelled from the spec: `utils.interp_values`, the vector interpolator
(§4.3).  Same contract as the scalar routine over equal-length query
sequences; each element is computed independently by the scalar routine; a
length mismatch is an explicit error (`none`), never silent truncation. -/
def interp_values (ms as_ fs : List ℚ) (icol : ℕ) (grid : Grid4) (mass_col : ℕ)
    (ages fehs : List ℚ) (grid_Ns : List (List ℕ)) : Option (List (Option ℚ)) :=
  if ms.length = as_.length ∧ as_.length = fs.length then
    some (map3 (fun m a f => interp_value m a f icol grid mass_col ages fehs grid_Ns) ms as_ fs)
  else none

end utils

/-- The three physical constants the module reads from astropy (`const.G.cgs`,
`const.M_sun.cgs`, `const.R_sun.cgs`), or hardcodes on `ImportError`. -/
structure PhysConsts : Type where
  G : ℚ
  MSUN : ℚ
  RSUN : ℚ
deriving DecidableEq, Repr

/-- The `except ImportError:` branch of the module header: the hardcoded
constants `G = 6.67e-11`, `MSUN = 1.99e33`, `RSUN = 6.96e10` exactly as they
appear in the source. -/
def fallbackConsts : PhysConsts := ⟨6.67e-11, 1.99e33, 6.96e10⟩

/-- The module-level `try: from astropy import constants ... except ImportError:`
dispatch: the provider's constants when available, the hardcoded fallback
otherwise; the import never fails. -/
def moduleConsts (astropy : Option PhysConsts) : PhysConsts :=
  astropy.getD fallbackConsts

/-- The extinction collaborator (`from ..extinction import EXTINCTION,
LAMBDA_EFF, extcurve, extcurve_0`): opaque per-band coefficient table,
per-band effective wavelengths, the parameterized extinction curve, and the
precomputed zero-parameter curve. -/
structure ExtCollab : Type where
  EXTINCTION : Band → ℚ
  LAMBDA_EFF : Band → ℚ
  extcurve : ℚ → ℚ → ℚ
  extcurve_0 : ℚ → ℚ

/-- Source `self._mag_cols` (u:7, g:8, r:9, i:10, z:11) as a map. -/
def _mag_cols : Band → ℕ
  | .u => 7
  | .g => 8
  | .r => 9
  | .i => 10
  | .z => 11

/-- Source `self._mag_cols.items()` in insertion order. -/
def _mag_cols_items : List (Band × ℕ) :=
  [(.u, 7), (.g, 8), (.r, 9), (.i, 10), (.z, 11)]

/-- The column index every `_mag` closure actually uses.  The source builds
`self._mag = {b: lambda m,a,f: self.interp_value(m,a,f,icol=i) for b,i in
self._mag_cols.items()}`; each lambda closes over the comprehension variable
`i` by reference, so after the comprehension all five closures share the one
binding of `i`, which holds the column of the LAST item iterated — under
dict insertion order, `('z', 11)`. -/
def _mag_captured_icol : ℕ :=
  ((_mag_cols_items.map Prod.snd).getLast?).getD 0

/-- One entry of `self.mag` (a closure returned by `_mag_fn`): it remembers
its band and the value `self.ext_table` had when the closure was created
(Python evaluates the default of the `ext_table` parameter at function
definition time, i.e. inside `__init__`). -/
structure MagClosure : Type where
  band : Band
  default_ext_table : Bool
deriving DecidableEq, Repr

/-- The engine.  `df`, `ext_table` are the stored attributes; `Ncols` is
`df.shape[1]` read at construction; `mag` is the dict of per-band magnitude
closures created by `__init__` (so it captures construction-time state). -/
structure MIST_Isochrone : Type where
  df : DataFrame
  ext_table : Bool
  Ncols : ℕ
  mag : Band → MagClosure

/-- Source `self.mass_col = 2`. -/
def MIST_Isochrone.mass_col : ℕ := 2

/-- Source `__init__(self, df, ext_table=False)`: store the table and flag, read the
column count, and create the per-band `mag` closures, whose `ext_table`
default is the flag's value now. -/
def MIST_Isochrone.init (df : DataFrame) (ext_table : Bool) : MIST_Isochrone :=
  ⟨df, ext_table, dfNcols df, fun b => ⟨b, ext_table⟩⟩

/-- Reassigning the `ext_table` attribute after construction.  The `mag`
closures already exist and are not touched. -/
def MIST_Isochrone.set_ext_table (E : MIST_Isochrone) (b : Bool) : MIST_Isochrone :=
  ⟨E.df, b, E.Ncols, E.mag⟩

/-- Source `self.fehs`. -/
def MIST_Isochrone.fehs (E : MIST_Isochrone) : List ℚ := fehsOf E.df

/-- Source `self.ages`. -/
def MIST_Isochrone.ages (E : MIST_Isochrone) : List ℚ := agesOf E.df

/-- Source `self.Nfeh = len(self.fehs)`. -/
def MIST_Isochrone.Nfeh (E : MIST_Isochrone) : ℕ := E.fehs.length

/-- Source `self.Nage = len(self.ages)`. -/
def MIST_Isochrone.Nage (E : MIST_Isochrone) : ℕ := E.ages.length

/-- The `grid` property (memoized `_make_grid` output; memoization is
operational only, the value is a pure function of the immutable table). -/
def MIST_Isochrone.grid (E : MIST_Isochrone) : Grid4 := gridOf E.df E.Ncols

/-- The `grid_Ns` property (the length table). -/
def MIST_Isochrone.grid_Ns (E : MIST_Isochrone) : List (List ℕ) := gridNsOf E.df

/-- Method `MIST_Isochrone.interp_value` for a scalar query: the `try:` branch calls
`utils.interp_value` directly; the scalar routine is total here, so the
`except:` vectorized fallback is never taken for scalar inputs. -/
def MIST_Isochrone.interp_value (E : MIST_Isochrone) (mass age feh : ℚ) (icol : ℕ) : Option ℚ :=
  utils.interp_value mass age feh icol E.grid MIST_Isochrone.mass_col E.ages E.fehs E.grid_Ns

/-- The `self._mag` dict: looking up any band returns the shared closure,
which interpolates the single captured column `_mag_captured_icol`
(see `_mag_captured_icol`). -/
def MIST_Isochrone._mag (E : MIST_Isochrone) (b : Band) (mass age feh : ℚ) : Option ℚ :=
  E.interp_value mass age feh _mag_captured_icol

/-- Source `self.logg(mass, age, feh) = self.interp_value(mass, age, feh, icol=4)`. -/
def MIST_Isochrone.logg (E : MIST_Isochrone) (mass age feh : ℚ) : Option ℚ :=
  E.interp_value mass age feh 4

/-- Source `self.mass(*args) = args[0]`: the mass accessor returns the query mass
unchanged (no reinterpolation). -/
def MIST_Isochrone.mass (E : MIST_Isochrone) (m age feh : ℚ) : ℚ := m

/-- Source `radius = np.sqrt(G * self.mass(*args) * MSUN / 10**self.logg(*args)) / RSUN`.
The module constants are the injected provider `C`; `sqrt` and `pow10` stand
for the opaque numeric routines `np.sqrt` and `10 ** ·`; a NaN log-gravity
propagates to a NaN radius. -/
def MIST_Isochrone.radius (E : MIST_Isochrone) (C : PhysConsts) (sqrt pow10 : ℚ → ℚ)
    (m age feh : ℚ) : Option ℚ :=
  (E.logg m age feh).map (fun lg => sqrt (C.G * E.mass m age feh * C.MSUN / pow10 lg) / C.RSUN)

/-- The body of the closure returned by `_mag_fn(band)`: choose the extinction
curve (`extcurve_0` when `x_ext == 0.`, else `extcurve(x_ext)`), form the
extinction term `A` (fixed table when `ext_table`, else curve at the band's
effective wavelength), the distance modulus `5*np.log10(distance) - 5`
(`log10` stands for the opaque `np.log10`), and add both to the interpolated
intrinsic magnitude. -/
def MagClosure.call (c : MagClosure) (E : MIST_Isochrone) (X : ExtCollab) (log10 : ℚ → ℚ)
    (mass age feh distance AV x_ext : ℚ) (ext_table : Bool) : Option ℚ :=
  let ext : ℚ → ℚ := if x_ext = 0 then X.extcurve_0 else X.extcurve x_ext
  let A : ℚ := if ext_table then AV * X.EXTINCTION c.band else AV * ext (X.LAMBDA_EFF c.band)
  let dm : ℚ := 5 * log10 distance - 5
  (E._mag c.band mass age feh).map (fun v => v + dm + A)

/-- Calling a `mag` closure without the `ext_table` keyword: Python supplies
the default that was evaluated when the closure was defined. -/
def MagClosure.callDefault (c : MagClosure) (E : MIST_Isochrone) (X : ExtCollab)
    (log10 : ℚ → ℚ) (mass age feh distance AV x_ext : ℚ) : Option ℚ :=
  c.call E X log10 mass age feh distance AV x_ext c.default_ext_table

/-- Predicate: `x` has no bracketing pair on `axis`: it is strictly beyond every axis
value on one side (in particular beyond both endpoints). -/
def beyondAxis (x : ℚ) (axis : List ℚ) : Prop :=
  (∀ y ∈ axis, x < y) ∨ (∀ y ∈ axis, y < x)

/-- All non-sentinel mass entries anywhere in the grid. -/
def gridMasses (grid : Grid4) (mcol : ℕ) : List ℚ :=
  (grid.flatten.flatten).filterMap (fun row => cellVal row mcol)

/-- The query mass is strictly beyond every valid mass entry of every track
(on one side): no track can bracket it. -/
def massBeyondGrid (x : ℚ) (mcol : ℕ) (grid : Grid4) : Prop :=
  (∀ mv ∈ gridMasses grid mcol, x < mv) ∨ (∀ mv ∈ gridMasses grid mcol, mv < x)

/-- The track of the cell with feh-index `j` and age-index `i`. -/
def trackAt (df : DataFrame) (j i : ℕ) : List Row :=
  trackOf df (((fehsOf df)[j]?).getD 0) (((agesOf df)[i]?).getD 0)

/-- The grid cell at feh-index `j`, age-index `i`. -/
def cellAt (df : DataFrame) (Ncols j i : ℕ) : GridCell :=
  ((((gridOf df Ncols)[j]?).getD [])[i]?).getD []

/-- A concrete 12-column model row for worked examples: metallicity `f`,
log-age `a`, mass `m`, log-gravity 5 (column 4), and per-band magnitudes
100, 101, 102, 103, 200 in columns 7–11. -/
def exRow (f a m : ℚ) : Row :=
  ⟨f, a, [f, a, m, 0, 5, 0, 0, 100, 101, 102, 103, 200]⟩

/-- A concrete table: metallicities {0, 1}, log-ages {0, 1}, two masses
{1, 2} per track. -/
def exDF : DataFrame :=
  [exRow 0 0 1, exRow 0 0 2, exRow 0 1 1, exRow 0 1 2,
   exRow 1 0 1, exRow 1 0 2, exRow 1 1 1, exRow 1 1 2]

/-- The engine constructed on the concrete table. -/
def exEngine : MIST_Isochrone := MIST_Isochrone.init exDF false

/-- A table whose metallicities first appear in decreasing order. -/
def unsortedDF : DataFrame := [⟨0, 0, []⟩, ⟨-1, 0, []⟩]

/-- A table whose tag columns are non-decreasing in row order. -/
def sortedDF : DataFrame := [⟨0, 0, []⟩, ⟨1, 1, []⟩]

/-- A concrete extinction collaborator for witnesses. -/
def exExt : ExtCollab := ⟨fun _ => 3, fun _ => 2, fun p w => p * w, fun w => w⟩

/-- A concrete stand-in for `np.log10` that is exact at 100. -/
def exLog10 : ℚ → ℚ := fun q => if q = 100 then 2 else 0

theorem mem_uniqueFirstAux {x : ℚ} :
    ∀ (l seen : List ℚ), x ∈ uniqueFirstAux seen l ↔ x ∈ l ∧ x ∉ seen := by
  intro l
  induction l with
  | nil => intro seen; simp [uniqueFirstAux]
  | cons a l ih =>
    intro seen
    by_cases ha : a ∈ seen
    · rw [uniqueFirstAux, if_pos ha, ih seen]
      constructor
      · rintro ⟨hx, hns⟩; exact ⟨List.mem_cons_of_mem a hx, hns⟩
      · rintro ⟨hx, hns⟩
        rcases List.mem_cons.mp hx with rfl | h
        · exact absurd ha hns
        · exact ⟨h, hns⟩
    · rw [uniqueFirstAux, if_neg ha, List.mem_cons, ih (a :: seen)]
      constructor
      · rintro (rfl | ⟨hx, hns⟩)
        · exact ⟨List.mem_cons_self _ _, ha⟩
        · exact ⟨List.mem_cons_of_mem _ hx, fun hs => hns (List.mem_cons_of_mem _ hs)⟩
      · rintro ⟨hx, hns⟩
        by_cases hxa : x = a
        · exact Or.inl hxa
        · rcases List.mem_cons.mp hx with h | h
          · exact absurd h hxa
          · exact Or.inr ⟨h, fun hs => (List.mem_cons.mp hs).elim hxa hns⟩

theorem mem_uniqueFirst {x : ℚ} {l : List ℚ} : x ∈ uniqueFirst l ↔ x ∈ l := by
  simp [uniqueFirst, mem_uniqueFirstAux]

theorem nodup_uniqueFirstAux : ∀ (l seen : List ℚ), (uniqueFirstAux seen l).Nodup := by
  intro l
  induction l with
  | nil => intro seen; simp [uniqueFirstAux]
  | cons a l ih =>
    intro seen
    by_cases ha : a ∈ seen
    · simpa [uniqueFirstAux, if_pos ha] using ih seen
    · rw [uniqueFirstAux, if_neg ha]
      refine List.nodup_cons.mpr ⟨?_, ih (a :: seen)⟩
      intro hmem
      exact ((mem_uniqueFirstAux l (a :: seen)).mp hmem).2 (List.mem_cons_self a seen)

theorem nodup_uniqueFirst (l : List ℚ) : (uniqueFirst l).Nodup :=
  nodup_uniqueFirstAux l []

theorem sublist_uniqueFirstAux : ∀ (l seen : List ℚ), (uniqueFirstAux seen l).Sublist l := by
  intro l
  induction l with
  | nil => intro seen; simp [uniqueFirstAux]
  | cons a l ih =>
    intro seen
    by_cases ha : a ∈ seen
    · rw [uniqueFirstAux, if_pos ha]
      exact (ih seen).cons a
    · rw [uniqueFirstAux, if_neg ha]
      exact (ih (a :: seen)).cons₂ a

theorem sublist_uniqueFirst (l : List ℚ) : (uniqueFirst l).Sublist l :=
  sublist_uniqueFirstAux l []

/-- If the underlying values are non-decreasing in list order, the
first-appearance distinct values are strictly increasing. -/
theorem sorted_lt_uniqueFirst {l : List ℚ} (h : l.Pairwise (· ≤ ·)) :
    (uniqueFirst l).Pairwise (· < ·) := by
  have hle : (uniqueFirst l).Pairwise (· ≤ ·) := List.Pairwise.sublist (sublist_uniqueFirst l) h
  have hne : (uniqueFirst l).Pairwise (· ≠ ·) := nodup_uniqueFirst l
  exact (hle.and hne).imp (fun hab => lt_of_le_of_ne hab.1 hab.2)

theorem trackInterp_nil {icol mcol : ℕ} {x : ℚ} : utils.trackInterp icol mcol x [] = none := rfl

theorem trackInterp_singleton {icol mcol : ℕ} {x : ℚ} {r : GridRow} :
    utils.trackInterp icol mcol x [r] = none := rfl

theorem trackInterp_cons_cons {icol mcol : ℕ} {x : ℚ} {r1 r2 : GridRow} {rest : List GridRow} :
    utils.trackInterp icol mcol x (r1 :: r2 :: rest) =
      match cellVal r1 mcol, cellVal r2 mcol with
      | some m1, some m2 =>
          if m1 ≤ x ∧ x ≤ m2 then
            match cellVal r1 icol, cellVal r2 icol with
            | some v1, some v2 => some (v1 + (v2 - v1) * (x - m1) / (m2 - m1))
            | _, _ => none
          else utils.trackInterp icol mcol x (r2 :: rest)
      | _, _ => none := rfl

theorem findBracket_cons_cons {a b : ℚ} {rest : List ℚ} {x : ℚ} :
    utils.findBracket (a :: b :: rest) x =
      if a ≤ x ∧ x ≤ b then some 0 else (utils.findBracket (b :: rest) x).map (· + 1) := rfl

theorem findBracket_none_of_beyond {x : ℚ} :
    ∀ {axis : List ℚ}, beyondAxis x axis → utils.findBracket axis x = none := by
  intro axis
  induction axis with
  | nil => intro _; rfl
  | cons a rest ih =>
    intro h
    cases rest with
    | nil => rfl
    | cons b rest' =>
      rw [findBracket_cons_cons]
      have hcond : ¬ (a ≤ x ∧ x ≤ b) := by
        rcases h with h | h
        · exact fun hc => absurd hc.1 (not_le.mpr (h a (List.mem_cons_self _ _)))
        · exact fun hc =>
            absurd hc.2 (not_le.mpr (h b (List.mem_cons_of_mem _ (List.mem_cons_self _ _))))
      rw [if_neg hcond]
      have hrest : beyondAxis x (b :: rest') := by
        rcases h with h | h
        · exact Or.inl (fun y hy => h y (List.mem_cons_of_mem _ hy))
        · exact Or.inr (fun y hy => h y (List.mem_cons_of_mem _ hy))
      rw [ih hrest]
      rfl

theorem trackInterp_none_of_beyond {x : ℚ} {icol mcol : ℕ} :
    ∀ {rows : GridCell},
      ((∀ row ∈ rows, ∀ mv, cellVal row mcol = some mv → x < mv) ∨
       (∀ row ∈ rows, ∀ mv, cellVal row mcol = some mv → mv < x)) →
      utils.trackInterp icol mcol x rows = none := by
  intro rows
  induction rows with
  | nil => intro _; rfl
  | cons r1 rest ih =>
    intro h
    cases rest with
    | nil => rfl
    | cons r2 rest' =>
      rw [trackInterp_cons_cons]
      cases hm1 : cellVal r1 mcol with
      | none => rfl
      | some m1 =>
        cases hm2 : cellVal r2 mcol with
        | none => rfl
        | some m2 =>
          have hcond : ¬ (m1 ≤ x ∧ x ≤ m2) := by
            rcases h with h | h
            · exact fun hc =>
                absurd hc.1 (not_le.mpr (h r1 (List.mem_cons_self _ _) m1 hm1))
            · exact fun hc =>
                absurd hc.2 (not_le.mpr
                  (h r2 (List.mem_cons_of_mem _ (List.mem_cons_self _ _)) m2 hm2))
          simp only [if_neg hcond]
          apply ih
          rcases h with h | h
          · exact Or.inl (fun row hrow => h row (List.mem_cons_of_mem _ hrow))
          · exact Or.inr (fun row hrow => h row (List.mem_cons_of_mem _ hrow))

theorem mem_gridMasses_of_cornerRows {grid : Grid4} {Ns : List (List ℕ)} {jj ii : ℕ}
    {row : GridRow} (hrow : row ∈ utils.cornerRows grid Ns jj ii)
    {mcol : ℕ} {mv : ℚ} (hm : cellVal row mcol = some mv) :
    mv ∈ gridMasses grid mcol := by
  have hcell : row ∈ (((grid[jj]?).getD [])[ii]?).getD [] :=
    List.mem_of_mem_take hrow
  cases hj : grid[jj]? with
  | none => rw [hj] at hcell; simp at hcell
  | some lj =>
    rw [hj] at hcell
    simp only [Option.getD_some] at hcell
    cases hi : lj[ii]? with
    | none => rw [hi] at hcell; simp at hcell
    | some cc =>
      rw [hi] at hcell
      simp only [Option.getD_some] at hcell
      have hlj : lj ∈ grid := List.getElem?_mem hj
      have hcc : cc ∈ grid.flatten := List.mem_flatten_of_mem hlj (List.getElem?_mem hi)
      have hrow2 : row ∈ grid.flatten.flatten := List.mem_flatten_of_mem hcc hcell
      exact List.mem_filterMap.mpr ⟨row, hrow2, hm⟩

theorem trackInterp_cornerRows_none_of_massBeyond {x : ℚ} {mcol icol : ℕ} {grid : Grid4}
    {Ns : List (List ℕ)} (h : massBeyondGrid x mcol grid) (jj ii : ℕ) :
    utils.trackInterp icol mcol x (utils.cornerRows grid Ns jj ii) = none := by
  apply trackInterp_none_of_beyond
  rcases h with h | h
  · exact Or.inl (fun row hrow mv hm => h mv (mem_gridMasses_of_cornerRows hrow hm))
  · exact Or.inr (fun row hrow mv hm => h mv (mem_gridMasses_of_cornerRows hrow hm))

theorem map3_length (f : ℚ → ℚ → ℚ → Option ℚ) :
    ∀ (ms as_ fs : List ℚ), ms.length = as_.length → as_.length = fs.length →
      (utils.map3 f ms as_ fs).length = ms.length := by
  intro ms
  induction ms with
  | nil => intro as_ fs _ _; rfl
  | cons m ms ih =>
    intro as_ fs h1 h2
    cases as_ with
    | nil => simp at h1
    | cons a as_ =>
      cases fs with
      | nil => simp at h2
      | cons b fs =>
        simp only [utils.map3, List.length_cons]
        rw [ih as_ fs (by simpa using h1) (by simpa using h2)]

theorem map3_getElem? (f : ℚ → ℚ → ℚ → Option ℚ) :
    ∀ (ms as_ fs : List ℚ) (k : ℕ) (m a b : ℚ),
      ms[k]? = some m → as_[k]? = some a → fs[k]? = some b →
      (utils.map3 f ms as_ fs)[k]? = some (f m a b) := by
  intro ms
  induction ms with
  | nil => intro as_ fs k m a b hm _ _; simp at hm
  | cons m0 ms ih =>
    intro as_ fs k m a b hm ha hb
    cases as_ with
    | nil => simp at ha
    | cons a0 as_ =>
      cases fs with
      | nil => simp at hb
      | cons b0 fs =>
        cases k with
        | zero =>
          simp only [List.getElem?_cons_zero, Option.some.injEq] at hm ha hb
          subst hm; subst ha; subst hb
          simp [utils.map3]
        | succ k =>
          simp only [List.getElem?_cons_succ] at hm ha hb
          simpa only [utils.map3, List.getElem?_cons_succ] using ih as_ fs k m a b hm ha hb

theorem le_foldr_max_of_mem {a : ℕ} : ∀ {l : List ℕ}, a ∈ l → a ≤ l.foldr max 0 := by
  intro l
  induction l with
  | nil => intro h; simp at h
  | cons b t ih =>
    intro h
    rcases List.mem_cons.mp h with rfl | h
    · exact Nat.le_max_left _ _
    · exact Nat.le_trans (ih h) (Nat.le_max_right _ _)

theorem mem_df_of_mem_trackOf {df : DataFrame} {f a : ℚ} {r : Row}
    (h : r ∈ trackOf df f a) : r ∈ df :=
  (List.mem_filter.mp h).1

theorem trackAt_length_le_maxLen (df : DataFrame) (j i : ℕ)
    (hj : j < (fehsOf df).length) (hi : i < (agesOf df).length) :
    (trackAt df j i).length ≤ maxLen df := by
  have hrow : (agesOf df).map (fun a => (trackOf df ((fehsOf df)[j]) a).length) ∈ gridNsOf df := by
    unfold gridNsOf
    exact List.mem_map_of_mem _ (List.getElem_mem hj)
  have hentry : (trackAt df j i).length ∈
      (agesOf df).map (fun a => (trackOf df ((fehsOf df)[j]) a).length) := by
    have : (trackAt df j i).length =
        ((agesOf df).map (fun a => (trackOf df ((fehsOf df)[j]) a).length)).get
          ⟨i, by simpa using hi⟩ := by
      rw [List.get_eq_getElem, List.getElem_map]
      unfold trackAt
      rw [List.getElem?_eq_getElem hj, List.getElem?_eq_getElem hi]
      rfl
    rw [this]
    exact List.get_mem _ _ _
  calc (trackAt df j i).length
      ≤ ((agesOf df).map (fun a => (trackOf df ((fehsOf df)[j]) a).length)).foldr max 0 :=
        le_foldr_max_of_mem hentry
    _ ≤ maxLen df := by
        unfold maxLen
        exact le_foldr_max_of_mem (List.mem_map_of_mem _ hrow)

/-- C2: on `ImportError` the module falls back to hardcoded constants and does
not fail, but the fallback `G` is the literal `6.67e-11` (the SI value), not
the CGS value `≈ 6.67e-8` that the claim states (and that the astropy branch,
which takes `.cgs.value` throughout, would produce); `MSUN` and `RSUN` do
match the claimed CGS values. -/
theorem fallback_constants_are_source_literals :
    moduleConsts none = fallbackConsts ∧
    fallbackConsts.MSUN = 1.99e33 ∧
    fallbackConsts.RSUN = 6.96e10 ∧
    fallbackConsts.G = 6.67e-11 ∧
    fallbackConsts.G ≠ 6.67e-8 := by
  refine ⟨rfl, rfl, rfl, rfl, ?_⟩
  norm_num [fallbackConsts]

/-- C10: the `ext_table` default of each `mag` closure is the engine's
`ext_table` flag as it was at construction; reassigning the attribute later
changes the attribute but not the already-created closures or the default
they supply. -/
theorem mag_default_ext_table_captured (df : DataFrame) (et b : Bool) (band : Band)
    (X : ExtCollab) (log10 : ℚ → ℚ) (m a f d AV x : ℚ) :
    ((MIST_Isochrone.init df et).mag band).default_ext_table = et ∧
    (((MIST_Isochrone.init df et).set_ext_table b).mag band).default_ext_table = et ∧
    ((MIST_Isochrone.init df et).set_ext_table b).ext_table = b ∧
    ((MIST_Isochrone.init df et).set_ext_table b).mag band = (MIST_Isochrone.init df et).mag band ∧
    (((MIST_Isochrone.init df et).set_ext_table b).mag band).callDefault
        ((MIST_Isochrone.init df et).set_ext_table b) X log10 m a f d AV x =
      (((MIST_Isochrone.init df et).set_ext_table b).mag band).call
        ((MIST_Isochrone.init df et).set_ext_table b) X log10 m a f d AV x et :=
  ⟨rfl, rfl, rfl, rfl, rfl⟩

/-- C3 counterexample: a table whose metallicities first appear in decreasing
order.  `unique()` preserves first-appearance order, so the derived
metallicity axis is `[0, -1]`, which is not strictly increasing: the claim's
"for every input Model Table the axes are sorted" is false on the code. -/
theorem axes_unsorted_counterexample :
    fehsOf unsortedDF = [0, -1] ∧ ¬ (fehsOf unsortedDF).Pairwise (· < ·) := by
  have h : fehsOf unsortedDF = [0, -1] := by
    norm_num [fehsOf, unsortedDF, uniqueFirst, uniqueFirstAux]
  refine ⟨h, ?_⟩
  rw [h]
  intro hp
  have := (List.pairwise_cons.mp hp).1 (-1) (List.mem_cons_self _ _)
  norm_num at this

/-- C3 amended: the axes hold the distinct metallicity / log-age values of the
table in order of FIRST APPEARANCE, with no duplicates, and `Nfeh`/`Nage` are
their lengths; they are strictly increasing whenever the corresponding tag
column is non-decreasing in row order (as in a table sorted by the
`[feh, age]` index), but not for arbitrary row orders. -/
theorem axes_first_appearance_props (df : DataFrame) :
    (fehsOf df).Nodup ∧ (agesOf df).Nodup ∧
    (∀ x : ℚ, x ∈ fehsOf df ↔ x ∈ df.map Row.feh) ∧
    (∀ x : ℚ, x ∈ agesOf df ↔ x ∈ df.map Row.age) ∧
    (∀ et : Bool, (MIST_Isochrone.init df et).Nfeh = (fehsOf df).length ∧
      (MIST_Isochrone.init df et).Nage = (agesOf df).length) ∧
    ((df.map Row.feh).Pairwise (· ≤ ·) → (fehsOf df).Pairwise (· < ·)) ∧
    ((df.map Row.age).Pairwise (· ≤ ·) → (agesOf df).Pairwise (· < ·)) :=
  ⟨nodup_uniqueFirst _, nodup_uniqueFirst _,
   fun _ => mem_uniqueFirst, fun _ => mem_uniqueFirst,
   fun _ => ⟨rfl, rfl⟩,
   sorted_lt_uniqueFirst, sorted_lt_uniqueFirst⟩

/-- Witness for the amended C3 theorem on a concrete sorted table. -/
theorem axes_first_appearance_props_witness :
    (fehsOf sortedDF).Nodup ∧ (fehsOf sortedDF).Pairwise (· < ·) :=
  ⟨(axes_first_appearance_props sortedDF).1,
   (axes_first_appearance_props sortedDF).2.2.2.2.2.1
     (by norm_num [sortedDF])⟩

/-- C1: the claim that `mag[b]`'s intrinsic-magnitude term interpolates band
`b`'s own column fails on the code.  The dict comprehension building `_mag`
creates lambdas that close over the loop variable `i` by reference, so every
band's closure interpolates the final loop value — column 11, the z band —
instead of its own column.  Concretely, on `exDF` (u column ≡ 100, z column
≡ 200) the u-band intrinsic term is 200, while interpolating u's own column 7
gives 100. -/
theorem mag_closures_share_last_column :
    _mag_captured_icol = 11 ∧ _mag_cols Band.u = 7 ∧
    exEngine._mag Band.u 1 0 0 = some 200 ∧
    exEngine.interp_value 1 0 0 (_mag_cols Band.u) = some 100 ∧
    exEngine._mag Band.u 1 0 0 ≠ exEngine.interp_value 1 0 0 (_mag_cols Band.u) := by
  have h1 : exEngine._mag Band.u 1 0 0 = some 200 := by
    norm_num [MIST_Isochrone._mag, _mag_captured_icol, _mag_cols_items,
      exEngine, exDF, exRow, MIST_Isochrone.interp_value, MIST_Isochrone.init,
      MIST_Isochrone.grid, MIST_Isochrone.grid_Ns, MIST_Isochrone.fehs, MIST_Isochrone.ages,
      MIST_Isochrone.mass_col, utils.interp_value, utils.findBracket, utils.trackInterp,
      utils.cornerRows, cellVal, gridOf, gridNsOf, fehsOf, agesOf, trackOf, maxLen, padTrack,
      uniqueFirst, uniqueFirstAux, dfNcols]
  have h2 : exEngine.interp_value 1 0 0 (_mag_cols Band.u) = some 100 := by
    norm_num [_mag_cols,
      exEngine, exDF, exRow, MIST_Isochrone.interp_value, MIST_Isochrone.init,
      MIST_Isochrone.grid, MIST_Isochrone.grid_Ns, MIST_Isochrone.fehs, MIST_Isochrone.ages,
      MIST_Isochrone.mass_col, utils.interp_value, utils.findBracket, utils.trackInterp,
      utils.cornerRows, cellVal, gridOf, gridNsOf, fehsOf, agesOf, trackOf, maxLen, padTrack,
      uniqueFirst, uniqueFirstAux, dfNcols]
  refine ⟨rfl, rfl, h1, h2, ?_⟩
  rw [h1, h2]
  norm_num

/-- C7: a `mag` closure returns the engine's intrinsic-magnitude term plus the
distance modulus `5*log10(distance) - 5` plus the extinction term; in
particular at `distance = 100`, `AV = 0` (and `log10 100 = 2`) the result is
the intrinsic term plus 5 (NaN propagating through). -/
theorem mag_distance_modulus (df : DataFrame) (et0 : Bool) (X : ExtCollab)
    (log10 : ℚ → ℚ) (band : Band) (m a f d AV x : ℚ) (et : Bool)
    (h100 : log10 100 = 2) :
    ((MIST_Isochrone.init df et0).mag band).call (MIST_Isochrone.init df et0) X log10
        m a f d AV x et =
      ((MIST_Isochrone.init df et0)._mag band m a f).map (fun v => v + (5 * log10 d - 5) +
        (if et then AV * X.EXTINCTION band
         else AV * (if x = 0 then X.extcurve_0 else X.extcurve x) (X.LAMBDA_EFF band))) ∧
    ((MIST_Isochrone.init df et0).mag band).call (MIST_Isochrone.init df et0) X log10
        m a f 100 0 x et =
      ((MIST_Isochrone.init df et0)._mag band m a f).map (fun v => v + 5) := by
  constructor
  · rfl
  · simp only [MagClosure.call, MIST_Isochrone.init, h100]
    norm_num

/-- Witness for C7 on the concrete engine and collaborators: the u-band
magnitude at distance 100 with zero extinction is the intrinsic term plus 5. -/
theorem mag_distance_modulus_witness :
    (exEngine.mag Band.u).call exEngine exExt exLog10 1 0 0 100 0 0 false =
      (exEngine._mag Band.u 1 0 0).map (fun v => v + 5) :=
  (mag_distance_modulus exDF false exExt exLog10 Band.u 1 0 0 100 0 0 false
    (by norm_num [exLog10])).2

/-- C8: the extinction term of a `mag` closure is `AV` times the band's fixed
coefficient when the fixed-table flag is set; otherwise `AV` times the
extinction curve at the band's effective wavelength, the precomputed default
curve `extcurve_0` exactly when `x_ext = 0` and the parameterized curve
`extcurve(x_ext)` otherwise. -/
theorem mag_extinction_term (df : DataFrame) (et0 : Bool) (X : ExtCollab)
    (log10 : ℚ → ℚ) (band : Band) (m a f d AV x : ℚ) :
    (((MIST_Isochrone.init df et0).mag band).call (MIST_Isochrone.init df et0) X log10
        m a f d AV x true =
      ((MIST_Isochrone.init df et0)._mag band m a f).map
        (fun v => v + (5 * log10 d - 5) + AV * X.EXTINCTION band)) ∧
    (x = 0 →
      ((MIST_Isochrone.init df et0).mag band).call (MIST_Isochrone.init df et0) X log10
          m a f d AV x false =
        ((MIST_Isochrone.init df et0)._mag band m a f).map
          (fun v => v + (5 * log10 d - 5) + AV * X.extcurve_0 (X.LAMBDA_EFF band))) ∧
    (x ≠ 0 →
      ((MIST_Isochrone.init df et0).mag band).call (MIST_Isochrone.init df et0) X log10
          m a f d AV x false =
        ((MIST_Isochrone.init df et0)._mag band m a f).map
          (fun v => v + (5 * log10 d - 5) + AV * X.extcurve x (X.LAMBDA_EFF band))) := by
  refine ⟨rfl, ?_, ?_⟩
  · rintro rfl
    simp [MagClosure.call, MIST_Isochrone.init]
  · intro hx
    simp [MagClosure.call, MIST_Isochrone.init, if_neg hx]

/-- Witness for C8: on the concrete engine, the fixed-table path and the two
curve paths evaluate as stated. -/
theorem mag_extinction_term_witness :
    (exEngine.mag Band.u).call exEngine exExt exLog10 1 0 0 10 1 (1/2) false =
      (exEngine._mag Band.u 1 0 0).map
        (fun v => v + (5 * exLog10 10 - 5) + 1 * exExt.extcurve (1/2) (exExt.LAMBDA_EFF Band.u)) :=
  (mag_extinction_term exDF false exExt exLog10 Band.u 1 0 0 10 1 (1/2)).2.2 (by norm_num)

/-- C9: whenever log-gravity interpolation succeeds, the radius is
`sqrt(G * mass * MSUN / 10^logg) / RSUN` with the literal query mass (the
`mass` accessor returns its first argument unchanged) and the injected
constants. -/
theorem radius_from_logg_and_literal_mass (E : MIST_Isochrone) (C : PhysConsts)
    (sqrt pow10 : ℚ → ℚ) (m a f lg : ℚ) (h : E.logg m a f = some lg) :
    E.radius C sqrt pow10 m a f = some (sqrt (C.G * m * C.MSUN / pow10 lg) / C.RSUN) ∧
    E.mass m a f = m := by
  constructor
  · rw [MIST_Isochrone.radius, h]
    rfl
  · rfl

/-- Witness for C9 on the concrete engine (log-gravity column is
identically 5 on `exDF`), with identity stand-ins for `sqrt` and `10 ** ·`
and unit constants. -/
theorem radius_from_logg_and_literal_mass_witness :
    exEngine.radius ⟨1, 1, 1⟩ id id 1 0 0 = some (id ((1:ℚ) * 1 * 1 / id 5) / 1) :=
  (radius_from_logg_and_literal_mass exEngine ⟨1, 1, 1⟩ id id 1 0 0 5
    (by norm_num [MIST_Isochrone.logg,
      exEngine, exDF, exRow, MIST_Isochrone.interp_value, MIST_Isochrone.init,
      MIST_Isochrone.grid, MIST_Isochrone.grid_Ns, MIST_Isochrone.fehs, MIST_Isochrone.ages,
      MIST_Isochrone.mass_col, utils.interp_value, utils.findBracket, utils.trackInterp,
      utils.cornerRows, cellVal, gridOf, gridNsOf, fehsOf, agesOf, trackOf, maxLen, padTrack,
      uniqueFirst, uniqueFirstAux, dfNcols])).1

/-- C6: the vector interpolator is the element-wise image of the scalar one.
On the singleton sequences `[m]`, `[a]`, `[f]` its first (only) element is the
scalar result, and in general, under the equal-length requirement, each output
element is exactly the scalar result for that query (no cross-query state). -/
theorem interp_values_elementwise_consistency (icol : ℕ) (grid : Grid4) (mcol : ℕ)
    (agesAx fehsAx : List ℚ) (Ns : List (List ℕ)) (ms as_ fs : List ℚ)
    (h1 : ms.length = as_.length) (h2 : as_.length = fs.length) :
    (∀ m a f : ℚ, utils.interp_values [m] [a] [f] icol grid mcol agesAx fehsAx Ns =
        some [utils.interp_value m a f icol grid mcol agesAx fehsAx Ns]) ∧
    ∃ out, utils.interp_values ms as_ fs icol grid mcol agesAx fehsAx Ns = some out ∧
      out.length = ms.length ∧
      ∀ (k : ℕ) (m a f : ℚ), ms[k]? = some m → as_[k]? = some a → fs[k]? = some f →
        out[k]? = some (utils.interp_value m a f icol grid mcol agesAx fehsAx Ns) := by
  constructor
  · intro m a f
    simp [utils.interp_values, utils.map3]
  · refine ⟨utils.map3 (fun m a f => utils.interp_value m a f icol grid mcol agesAx fehsAx Ns)
      ms as_ fs, ?_, map3_length _ _ _ _ h1 h2, ?_⟩
    · simp [utils.interp_values, h1, h2]
    · intro k m a f hm ha hf
      exact map3_getElem? _ ms as_ fs k m a f hm ha hf

/-- Witness for C6: singleton consistency on the concrete grid. -/
theorem interp_values_elementwise_consistency_witness :
    utils.interp_values [1] [0] [0] 7 exEngine.grid MIST_Isochrone.mass_col
        exEngine.ages exEngine.fehs exEngine.grid_Ns =
      some [utils.interp_value 1 0 0 7 exEngine.grid MIST_Isochrone.mass_col
        exEngine.ages exEngine.fehs exEngine.grid_Ns] :=
  (interp_values_elementwise_consistency 7 exEngine.grid MIST_Isochrone.mass_col
    exEngine.ages exEngine.fehs exEngine.grid_Ns [1] [0] [0] rfl rfl).1 1 0 0

/-- C4: a scalar query whose metallicity or age lies beyond both endpoints of
its axis (no bracketing pair of axis indices exists), or whose mass lies
beyond every track's valid mass range, yields the missing-value sentinel;
the entry point is a total function of its inputs, so no out-of-range scalar
query can raise. -/
theorem interp_value_out_of_range_sentinel (E : MIST_Isochrone) (mass age feh : ℚ)
    (icol : ℕ)
    (h : beyondAxis feh E.fehs ∨ beyondAxis age E.ages ∨
         massBeyondGrid mass MIST_Isochrone.mass_col E.grid) :
    E.interp_value mass age feh icol = none := by
  unfold MIST_Isochrone.interp_value utils.interp_value
  rcases h with h | h | h
  · rw [findBracket_none_of_beyond h]
  · rw [findBracket_none_of_beyond h]
    cases utils.findBracket E.fehs feh <;> rfl
  · cases hf : utils.findBracket E.fehs feh with
    | none => rfl
    | some j =>
      cases ha : utils.findBracket E.ages age with
      | none => rfl
      | some i =>
        simp only [trackInterp_cornerRows_none_of_massBeyond h]

/-- Witness for C4: metallicity 5 is beyond the concrete axis `[0, 1]`, and
the scalar entry point returns the sentinel. -/
theorem interp_value_out_of_range_sentinel_witness :
    exEngine.interp_value 1 0 5 4 = none :=
  interp_value_out_of_range_sentinel exEngine 1 0 5 4
    (Or.inl (Or.inr (by
      norm_num [MIST_Isochrone.fehs, exEngine, MIST_Isochrone.init, fehsOf, exDF, exRow,
        uniqueFirst, uniqueFirstAux])))

/-- C5: the built grid has shape `[Nfeh, Nage, L, Ncols]` with `L` the maximum
track length; at each (feh-index, age-index) the cell is the track's rows (in
original order, all entries present) up to the length-table entry, and every
row at or beyond that length is sentinel in every column. -/
theorem grid_shape_and_padding (df : DataFrame) (Ncols : ℕ)
    (hw : ∀ r ∈ df, r.cols.length = Ncols)
    (j i : ℕ) (hj : j < (fehsOf df).length) (hi : i < (agesOf df).length) :
    (gridOf df Ncols).length = (fehsOf df).length ∧
    (((gridOf df Ncols)[j]?).getD []).length = (agesOf df).length ∧
    cellAt df Ncols j i = padTrack (trackAt df j i) (maxLen df) Ncols ∧
    ((((gridNsOf df)[j]?).getD [])[i]?).getD 0 = (trackAt df j i).length ∧
    (cellAt df Ncols j i).length = maxLen df ∧
    (∀ rI : ℕ, rI < (trackAt df j i).length →
        (cellAt df Ncols j i)[rI]? = ((trackAt df j i)[rI]?).map (fun r => r.cols.map some)) ∧
    (∀ rI : ℕ, (trackAt df j i).length ≤ rI → rI < maxLen df →
        (cellAt df Ncols j i)[rI]? = some (List.replicate Ncols none)) ∧
    (∀ row ∈ cellAt df Ncols j i, row.length = Ncols) := by
  have hgj : (gridOf df Ncols)[j]? =
      some ((agesOf df).map
        (fun a => padTrack (trackOf df ((fehsOf df)[j]) a) (maxLen df) Ncols)) := by
    unfold gridOf
    rw [List.getElem?_map, List.getElem?_eq_getElem hj]
    rfl
  have hfj : ((fehsOf df)[j]?).getD 0 = (fehsOf df)[j] := by
    rw [List.getElem?_eq_getElem hj]; rfl
  have hai : ((agesOf df)[i]?).getD 0 = (agesOf df)[i] := by
    rw [List.getElem?_eq_getElem hi]; rfl
  have htrack : trackAt df j i = trackOf df ((fehsOf df)[j]) ((agesOf df)[i]) := by
    unfold trackAt; rw [hfj, hai]
  have hcell : cellAt df Ncols j i = padTrack (trackAt df j i) (maxLen df) Ncols := by
    unfold cellAt
    rw [hgj]
    simp only [Option.getD_some]
    rw [List.getElem?_map, List.getElem?_eq_getElem hi]
    simp [htrack]
  have hNsj : (gridNsOf df)[j]? =
      some ((agesOf df).map (fun a => (trackOf df ((fehsOf df)[j]) a).length)) := by
    unfold gridNsOf
    rw [List.getElem?_map, List.getElem?_eq_getElem hj]
    rfl
  have hlen : ((((gridNsOf df)[j]?).getD [])[i]?).getD 0 = (trackAt df j i).length := by
    rw [hNsj]
    simp only [Option.getD_some]
    rw [List.getElem?_map, List.getElem?_eq_getElem hi]
    simp [htrack]
  have htle : (trackAt df j i).length ≤ maxLen df := trackAt_length_le_maxLen df j i hj hi
  have hcelllen : (padTrack (trackAt df j i) (maxLen df) Ncols).length = maxLen df := by
    unfold padTrack
    rw [List.length_append, List.length_map, List.length_replicate]
    omega
  refine ⟨?_, ?_, hcell, hlen, ?_, ?_, ?_, ?_⟩
  · unfold gridOf; rw [List.length_map]
  · rw [hgj]; simp only [Option.getD_some]; rw [List.length_map]
  · rw [hcell, hcelllen]
  · intro rI hrI
    rw [hcell]
    unfold padTrack
    rw [List.getElem?_append_left (by rw [List.length_map]; exact hrI)]
    rw [List.getElem?_map]
  · intro rI h1 h2
    rw [hcell]
    unfold padTrack
    rw [List.getElem?_append_right (by rw [List.length_map]; exact h1)]
    rw [List.length_map, List.getElem?_replicate, if_pos (by omega)]
  · intro row hrow
    rw [hcell] at hrow
    unfold padTrack at hrow
    rcases List.mem_append.mp hrow with hmem | hmem
    · obtain ⟨r, hr, rfl⟩ := List.mem_map.mp hmem
      rw [List.length_map]
      exact hw r (mem_df_of_mem_trackOf (htrack ▸ hr))
    · rw [List.eq_of_mem_replicate hmem]
      exact List.length_replicate _ _

/-- Witness for C5 on the concrete table: the (0,0) cell is exactly as padded
and has the maximum track length. -/
theorem grid_shape_and_padding_witness :
    (cellAt exDF 12 0 0).length = maxLen exDF :=
  (grid_shape_and_padding exDF 12 (by decide) 0 0 (by decide) (by decide)).2.2.2.2.1
